import Mathlib

/-!
Verification of the zinbot page-triage core: the on-wiki log store
(`logging_.py`, `classes.py`), the RfD nomination verifier
(`pagetriage/rfd.py`) and the NewPagesFeed sweep loop
(`pagetriage/newpages.py`).

Strings are modelled as `List Char` (`Str`), so every Python string
operation used by the source is given an executable Lean counterpart.
-/

namespace Zinbot

/-- Python strings are modelled as lists of characters. -/
abbrev Str := List Char

/-- Models `str.removeprefix(p)`: drop `p` from the front if it is a prefix,
otherwise return the string unchanged. -/
def removePre (p s : Str) : Str :=
  if p.isPrefixOf s then s.drop p.length else s

/-- Models `str.removesuffix(p)`: drop `p` from the end if it is a suffix,
otherwise return the string unchanged. -/
def removeSuf (p s : Str) : Str :=
  if p.isSuffixOf s then s.take (s.length - p.length) else s

/-- Fuel-bounded worker for `replaceStr`; fuel `s.length` is enough
because every step consumes at least one character. -/
def replaceStrAux (old new : Str) : Nat → Str → Str
  | _, [] => []
  | 0, s => s
  | fuel + 1, c :: rest =>
      if old.isPrefixOf (c :: rest) then
        new ++ replaceStrAux old new fuel (rest.drop (old.length - 1))
      else
        c :: replaceStrAux old new fuel rest

/-- Models `str.replace(old, new)` for nonempty `old`: replace each
non-overlapping occurrence left to right. -/
def replaceStr (old new s : Str) : Str :=
  replaceStrAux old new s.length s

/-- Models `str.split()` with no arguments: split on runs of whitespace,
discarding empty pieces. -/
def pyWords (s : Str) : List Str :=
  (s.splitOnP (fun c => c.isWhitespace)).filter (fun w => !w.isEmpty)

/-- Models `rfd._compress_ws`: `" ".join(text.split())`. -/
def compressWs (s : Str) : Str :=
  List.intercalate [' '] (pyWords s)

/-! ## Log store (`classes.py`, `logging_.py`)

`SensitiveDict`/`SensitiveList` are change-tracked containers: the
`changed` flag is set by `__setitem__`/`__delitem__`/`append`, and
`been_changed` asks whether the container or any member was mutated.
The store itself maps day-keys to lists of events. -/

/-- Models `classes.Event`: one logged event, as stored in the JSON log. -/
structure Event where
  page : Str
  code : Str
  message : Str
  timestamp : Str
deriving DecidableEq, Repr

/-- Models `classes.SensitiveList` restricted to event lists: the element list
plus the `_changed` flag set by `append` (and fresh `False` on
construction). -/
structure SList where
  elems : List Event
  changed : Bool
deriving DecidableEq, Repr

/-- Models `classes.SensitiveDict` specialised to `LoggerData`: insertion-ordered
day-key/value pairs plus the `_changed` flag set by `__setitem__` and
`__delitem__`. Keys are unique in any state reachable from a Python
dict; theorems that need this carry a `Nodup` hypothesis. -/
structure SDict where
  entries : List (Str × SList)
  changed : Bool
deriving DecidableEq, Repr

/-- Models `SensitivityMixin.been_changed` for the store: true when any member
list was changed or the dict itself was changed. -/
def SDict.beenChanged (d : SDict) : Bool :=
  d.entries.any (fun kv => kv.2.changed) || d.changed

/-- All page titles stored in an entry list, one per event, in store
order: `[i['page'] for day in data.values() for i in day]`. -/
def allPagesL (entries : List (Str × SList)) : List Str :=
  entries.flatMap (fun kv => kv.2.elems.map (fun e => e.page))

/-- All page titles stored anywhere in the store. -/
def allPages (d : SDict) : List Str :=
  allPagesL d.entries

/-- Models `today in data`: key membership. -/
def hasKeyL (entries : List (Str × SList)) (k : Str) : Bool :=
  entries.any (fun kv => kv.1 == k)

/-- Models `data[k] = f data[k]` on the unique binding of key `k` (Python dict
update of an existing key: value replaced in place, position kept). -/
def updateFirst (k : Str) (f : SList → SList) :
    List (Str × SList) → List (Str × SList)
  | [] => []
  | (k', v) :: rest =>
      if k' == k then (k', f v) :: rest else (k', v) :: updateFirst k f rest

/-- Models `OnWikiLogger.log` on a loaded store: skip if the page is already
logged anywhere; otherwise create today's (empty, fresh) list if absent
— marking the dict changed — and append the new event — marking that
day's list changed. `today`/`timestamp` are the rendered `now` strings;
`code`/`message` the enum name and rendered message. -/
def logOp (data : SDict) (today code page message timestamp : Str) : SDict :=
  if (allPages data).contains page then data
  else
    let e : Event := ⟨page, code, message, timestamp⟩
    let d1 : SDict :=
      if hasKeyL data.entries today then data
      else ⟨data.entries ++ [(today, ⟨[], false⟩)], true⟩
    ⟨updateFirst today (fun l => ⟨l.elems ++ [e], true⟩) d1.entries, d1.changed⟩

/-! ## Dates (`OnWikiLogger.day_too_old`) -/

/-- Digits-only string to a number (`int(s)` on the digit groups that
`strptime` extracts). -/
def parseNat (s : Str) : Option Int :=
  if !s.isEmpty && s.all (fun c => c.isDigit) then
    some ((s.foldl (fun a c => a * 10 + (c.toNat - '0'.toNat)) 0 : Nat) : Int)
  else none

/-- Models `datetime.strptime(s, "%Y-%m-%d").date()`: split on `-`, read the
three numeric fields, and require a plausible calendar range (the keys
this is applied to are produced by `strftime` with the same format). -/
def parseDate (s : Str) : Option (Int × Int × Int) :=
  match s.splitOn '-' with
  | [ys, ms, ds] =>
      match parseNat ys, parseNat ms, parseNat ds with
      | some y, some m, some d =>
          if 1 ≤ m ∧ m ≤ 12 ∧ 1 ≤ d ∧ d ≤ 31 then some (y, m, d) else none
      | _, _, _ => none
  | _ => none

/-- Days since 1970-01-01 of a civil date (standard civil-from-days
inverse; models Python `date` subtraction, which counts days). -/
def daysFromCivil (y m d : Int) : Int :=
  let y' := if m ≤ 2 then y - 1 else y
  let era := (if 0 ≤ y' then y' else y' - 399) / 400
  let yoe := y' - era * 400
  let mp := (m + 9) % 12
  let doy := (153 * mp + 2) / 5 + d - 1
  let doe := yoe * 365 + yoe / 4 - yoe / 100 + doy
  era * 146097 + doe - 719468

/-- Models `OnWikiLogger.day_too_old`: parse the day-key and ask whether
`now.date() - as_date > timedelta(days=7)`, i.e. strictly more than 7
days ago. `todayD` is today's day number. -/
def day_too_old (todayD : Int) (day : Str) : Bool :=
  match parseDate day with
  | some (y, m, d) => todayD - daysFromCivil y m d > 7
  | none => false

/-! ## Log cleanup (`rfd.cleanup`) -/

/-- The events of one day that survive cleanup:
`[i for i in entries if i['page'].removeprefix(":") in unreviewed_titles]`. -/
def keptEvents (pending : List Str) (evs : List Event) : List Event :=
  evs.filter (fun e => pending.contains (removePre [':'] e.page))

/-- One iteration of the `rfd.cleanup` loop over a snapshot of the
store: a too-old day is deleted outright (`del`, dict marked changed);
otherwise the day is rebuilt as a fresh filtered list, deleted if empty,
else reassigned (`__setitem__`, dict marked changed, fresh list flag
`false`). -/
def cleanupStep (todayD : Int) (pending : List Str) (acc : SDict)
    (kv : Str × SList) : SDict :=
  if day_too_old todayD kv.1 then ⟨acc.entries, true⟩
  else
    let entries' := keptEvents pending kv.2.elems
    if entries'.isEmpty then ⟨acc.entries, true⟩
    else ⟨acc.entries ++ [(kv.1, ⟨entries', false⟩)], true⟩

/-- Models `rfd.cleanup` on a loaded store: fold the loop body over a snapshot
of the items, keeping the dict's incoming `_changed` flag as the start
value. -/
def cleanupOp (todayD : Int) (pending : List Str) (data : SDict) : SDict :=
  data.entries.foldl (cleanupStep todayD pending) ⟨[], data.changed⟩

/-- The per-day outcome of one cleanup iteration (used to state what the
fold computes). -/
def cleanDay (todayD : Int) (pending : List Str) (kv : Str × SList) :
    Option (Str × SList) :=
  if day_too_old todayD kv.1 then none
  else
    let entries' := keptEvents pending kv.2.elems
    if entries'.isEmpty then none else some (kv.1, ⟨entries', false⟩)

/-- First binding of a day-key in the store, as its event list. -/
def lookupDay (d : SDict) (k : Str) : Option (List Event) :=
  (d.entries.find? (fun kv => kv.1 == k)).map (fun kv => kv.2.elems)

/-- The day-keys of the store, in order. -/
def keysOf (d : SDict) : List Str :=
  d.entries.map (fun kv => kv.1)

/-- Structural content of the store: the day-keyed event lists without
any change-tracking flags. `edit` persists iff `been_changed`; the spec
claims that coincides with this projection differing from the load. -/
def plainOf (d : SDict) : List (Str × List Event) :=
  d.entries.map (fun kv => (kv.1, kv.2.elems))

/-! ## Namespaces and titles (`classes.py`) -/

/-- The namespaces this code path touches. `MAIN` is declared as
`0, ''` in `classes.Namespace`, so its raw name is empty. -/
inductive NS
  | MAIN
  | USER
  | PROJECT
deriving DecidableEq, Repr

/-- The raw namespace name: the explicit `''` for `MAIN`, else the
capitalised member name. -/
def NS.rawName : NS → Str
  | .MAIN => []
  | .USER => "User".toList
  | .PROJECT => "Project".toList

/-- Models `Namespace.prefix = raw_prefix + ":"` — note that `MAIN` therefore
gets the bare `":"`. -/
def NS.pre (ns : NS) : Str :=
  ns.rawName ++ [':']

/-- Models `classes.Title.__new__`: a title is the namespace's prefix string
followed by the page name. -/
def mkTitle (ns : NS) (pagename : Str) : Str :=
  ns.pre ++ pagename

/-! ## Parsed log-page wikitext (`mwparserfromhell`, modelled as a
capability per the spec: a structured document whose headings and tags
can be filtered by predicate) -/

/-- A node of a parsed log page. Tags carry their attributes as
name/raw-value pairs, where the raw value is the source text after the
first `=` of a well-formed `name=value` attribute (quotes, if any,
included) — what `tag.get(name).split("=", maxsplit=1)[1]` yields. -/
inductive WNode
  | heading (title : Str)
  | tag (tagName : Str) (attrs : List (Str × Str))
deriving DecidableEq, Repr

/-- Models `tag.get(name)` on the modelled attributes: first attribute with
that name, or `None` (the caught `ValueError`). -/
def pyFindAttr (attrs : List (Str × Str)) (name : Str) : Option Str :=
  (attrs.find? (fun a => a.1 == name)).map (fun a => a.2)

/-- Models `rfd._is_correct_anchor`: a `span` whose `id` value — quotes
stripped, whitespace collapsed — equals the target anchor. -/
def isCorrectAnchor (tagName : Str) (attrs : List (Str × Str))
    (target : Str) : Bool :=
  if tagName != "span".toList then false
  else
    match pyFindAttr attrs "id".toList with
    | none => false
    | some raw => compressWs (removeSuf ['"'] (removePre ['"'] raw)) == target

/-- The heading predicate of `_check_filed`'s `filter_headings` call. -/
def matchesHeading (anchor : Str) : WNode → Bool
  | .heading t => compressWs t == anchor
  | _ => false

/-- The tag predicate of `_check_filed`'s `filter_tags` call. -/
def matchesTag (anchor : Str) : WNode → Bool
  | .tag n attrs => isCorrectAnchor n attrs anchor
  | _ => false

/-- Models `filed = parsed.filter_headings(...) or parsed.filter_tags(...)`
is nonempty: some heading matches, or some tag does. -/
def anchorMatch (doc : List WNode) (anchor : Str) : Bool :=
  doc.any (matchesHeading anchor) || doc.any (matchesTag anchor)

/-- The anchor `_check_filed` searches for:
`page_title.replace('"', "&quot;").removeprefix(":")`. -/
def normAnchor (pageTitle : Str) : Str :=
  removePre [':'] (replaceStr ['"'] "&quot;".toList pageTitle)

/-! ## The verifier (`rfd._check_filed`, `rfd.check_rfd`) and
`client.get_page` -/

/-- Models `client.PageNotFoundError`. -/
inductive PageNotFound
  | mk
deriving DecidableEq, Repr

/-- A fetched RfD log page: its parsed wikitext and the titles of the
pages transcluding it (`rfd.embeddedin()`). -/
structure LogPage where
  doc : List WNode
  transcluders : List Str
deriving DecidableEq, Repr

/-- Models `client.get_page(title, ns, must_exist=True)`: return the page or
raise `PageNotFoundError` when it does not exist. (The verifier only
uses the `must_exist` path.) The wiki is the map from
namespace/pagename to existing log pages. -/
def get_page (wiki : NS → Str → Option LogPage) (ns : NS) (pagename : Str) :
    Except PageNotFound LogPage :=
  match wiki ns pagename with
  | some p => Except.ok p
  | none => Except.error PageNotFound.mk

/-- The on-wiki message templates of `rfd._Messages`. -/
inductive RMessage
  | RFD0
  | RFD1
  | RFD2
deriving DecidableEq, Repr

/-- Models `message.name`: the error code stored in the log event. -/
def RMessage.codeName : RMessage → Str
  | .RFD0 => "RFD0".toList
  | .RFD1 => "RFD1".toList
  | .RFD2 => "RFD2".toList

/-- Models `message.value.format(page=page, rfd=rfd)`: the rendered log
message. -/
def RMessage.render (m : RMessage) (page rfd : Str) : Str :=
  match m with
  | .RFD0 => "[[".toList ++ page ++ "]] not filed to [[".toList ++ rfd
      ++ "]] (currently a redlink).".toList
  | .RFD1 => "[[".toList ++ page ++ "]] not filed to [[".toList ++ rfd
      ++ "]].".toList
  | .RFD2 => "[[".toList ++ page ++ "]] filed to [[".toList ++ rfd
      ++ "]], but that log page has not been transcluded to main RfD page.".toList

/-- The pagename of the expected forum log page:
`f"Redirects for discussion/Log/{year} {month} {day}"`. -/
def rfdPagename (year month day : Str) : Str :=
  "Redirects for discussion/Log/".toList ++ year ++ [' '] ++ month ++ [' '] ++ day

/-- The title of the RfD main page checked against the transcluders. -/
def mainRfdTitle : Str :=
  "Wikipedia:Redirects for discussion".toList

/-- Models `rfd._check_filed`, with its on-wiki logging made explicit: the
returned boolean is the verification verdict handed to `check_rfd`, and
the optional second component is the log call performed (message enum
and the `rfd=` formatter; the logged page is `pageTitle` itself).

Faithful to the source, including its fall-through: when the log page
exists but no anchor matches, the function logs `RFD1` and then falls
through to `return True`. -/
def checkFiled (wiki : NS → Str → Option LogPage) (pageTitle : Str)
    (year month day : Str) : Bool × Option (RMessage × Str) :=
  let rfdName := rfdPagename year month day
  let rfdTitle := mkTitle .PROJECT rfdName
  match get_page wiki .PROJECT rfdName with
  | .error _ => (false, some (.RFD0, rfdTitle))
  | .ok rfd =>
      let anchor := normAnchor pageTitle
      let filed := anchorMatch rfd.doc anchor
      if !filed then (true, some (.RFD1, rfdTitle))
      else if !(rfd.transcluders.contains mainRfdTitle) then
        (false, some (.RFD2, rfdTitle))
      else (true, none)

/-- Models `rfd.check_rfd`: no nomination template (no date params) means
`False` with no logging; otherwise defer to `_check_filed`. -/
def check_rfd (wiki : NS → Str → Option LogPage)
    (dateParams : Option (Str × Str × Str)) (pageTitle : Str) :
    Bool × Option (RMessage × Str) :=
  match dateParams with
  | none => (false, none)
  | some (y, m, d) => checkFiled wiki pageTitle y m d

/-! ## The sweep loop (`newpages.checkqueue`) -/

/-- One entry of the NewPagesFeed queue; `creation_date` is `none` when
the feed entry lacks the key (the `KeyError` branch). -/
structure QueueEntry where
  title : Str
  pageid : Nat
  creation_date : Option Nat
deriving DecidableEq, Repr

/-- Models `Title.from_page(page)` for a mainspace feed page: the feed title
with the `MAIN` prefix (a bare colon). This is the page string passed
to the on-wiki logger. -/
def pageOf (e : QueueEntry) : Str :=
  mkTitle .MAIN e.title

/-- The sweep's mutable state. `unreviewed` and `store` are the
program's `unreviewed_titles` and the on-wiki log store; `reviews`
records every `_review` call by pageid, and `seen` every title ever
appended to `unreviewed_titles` (both are history variables: projections
of what the code did, added for specification only). -/
structure SweepState where
  unreviewed : List Str
  reviews : List Nat
  seen : List Str
  store : SDict
deriving DecidableEq, Repr

/-- The per-entry body of the sweep: run the verifier (`verify` models
`check_rfd` on the fetched page), apply its log call to the store, and
on a match review the page and remove the first occurrence of its feed
title from `unreviewed_titles`. -/
def applyVerify (today ts : Str)
    (verify : QueueEntry → Bool × Option (RMessage × Str))
    (st : SweepState) (e : QueueEntry) : SweepState :=
  let r := verify e
  let store :=
    match r.2 with
    | some (m, rfd) =>
        logOp st.store today m.codeName (pageOf e)
          (m.render (pageOf e) rfd) ts
    | none => st.store
  if r.1 then
    { st with store := store,
              reviews := st.reviews ++ [e.pageid],
              unreviewed := st.unreviewed.erase e.title }
  else { st with store := store }

/-- One pass of the `while` body over the current queue:
`unreviewed_titles += [i['title'] for i in queue]`, then the per-entry
loop. (`seen` mirrors the append.) -/
def processQueue (today ts : Str)
    (verify : QueueEntry → Bool × Option (RMessage × Str))
    (st : SweepState) (queue : List QueueEntry) : SweepState :=
  let st1 := { st with
    unreviewed := st.unreviewed ++ queue.map (fun e => e.title),
    seen := st.seen ++ queue.map (fun e => e.title) }
  queue.foldl (applyVerify today ts verify) st1

/-- The sweep's abnormal exits: `queue[-1]` on an empty queue
(`IndexError`) and a last entry without `creation_date`
(`QueueError`). -/
inductive SweepError
  | emptyQueue
  | noCreationDate
deriving DecidableEq, Repr

/-- The `while True` loop of `checkqueue`, fuel-indexed (`none` = the
fuel ran out, i.e. the run would still be looping). `fetch` models
`_buildqueue(['showdeleted'], start=cursor)`; its second argument is
the set of already-reviewed pageids, through which the feed's
`showunreviewed` filtering can be expressed as a hypothesis. -/
def sweepLoop (fetch : Nat → List Nat → List QueueEntry)
    (verify : QueueEntry → Bool × Option (RMessage × Str))
    (today ts : Str) :
    Nat → SweepState → List QueueEntry → Option (Except SweepError SweepState)
  | 0, _, _ => none
  | fuel + 1, st, queue =>
      let st' := processQueue today ts verify st queue
      match queue.getLast? with
      | none => some (.error .emptyQueue)
      | some lastE =>
          match lastE.creation_date with
          | none => some (.error .noCreationDate)
          | some lastTs =>
              let newqueue := fetch lastTs st'.reviews
              match newqueue.getLast? with
              | none => some (.ok st')
              | some newLast =>
                  if lastE.pageid == newLast.pageid then some (.ok st')
                  else sweepLoop fetch verify today ts fuel st' newqueue

/-- Models `checkqueue` up to the point where `rfd.cleanup(unreviewed_titles)`
is invoked: seed the cursor at 1, run the loop; an `.ok` result is the
state in which cleanup is called. -/
def checkqueueRun (fetch : Nat → List Nat → List QueueEntry)
    (verify : QueueEntry → Bool × Option (RMessage × Str))
    (today ts : Str) (store0 : SDict) (fuel : Nat) :
    Option (Except SweepError SweepState) :=
  sweepLoop fetch verify today ts fuel ⟨[], [], [], store0⟩ (fetch 1 [])

/-! ## Helper lemmas: the log store -/

/-! ## Concrete scenario data and specification predicates -/

/-- A day-key more than 7 days before `c3today`. -/
def c3day1 : Str := "2025-09-01".toList

/-- A day-key 2 days before `c3today`. -/
def c3day2 : Str := "2025-10-10".toList

/-- A logged mainspace event whose colonless title stays pending. -/
def c3evA : Event := ⟨":Foo".toList, "RFD1".toList, "mA".toList, "tA".toList⟩

/-- A logged event whose page is no longer pending. -/
def c3evB : Event := ⟨":Gone".toList, "RFD1".toList, "mB".toList, "tB".toList⟩

/-- A two-day store: one too-old day, one recent day. -/
def c3store : SDict :=
  ⟨[(c3day1, ⟨[c3evA], false⟩), (c3day2, ⟨[c3evA, c3evB], false⟩)], false⟩

/-- The fixed "now" of the cleanup examples: 2025-10-12. -/
def c3today : Int := daysFromCivil 2025 10 12

/-- The pending titles of the cleanup examples. -/
def c3pending : List Str := ["Foo".toList]

/-- A store as `_load_json` returns it: no container or member flag
set yet. -/
def FreshStore (d : SDict) : Prop :=
  d.changed = false ∧ ∀ kv ∈ d.entries, kv.2.changed = false

/-- A one-day fresh store whose only event is still pending: cleanup
rebuilds it unchanged. -/
def c4store : SDict := ⟨[(c3day2, ⟨[c3evA], false⟩)], false⟩

/-- An entirely empty wiki: every log-page probe misses. -/
def c8wiki : NS → Str → Option LogPage := fun _ _ => none

/-- The parsed content of the existing forum log page in the C1
scenario: it has entries, but none matching the nominated page. -/
def c1doc : List WNode := [WNode.heading "Some other entry".toList]

/-- The wiki of the C1 scenario: the forum log page for 2024 January 5
exists (and is transcluded on the main RfD page), with `c1doc` as its
content; everything else is missing. -/
def c1wiki : NS → Str → Option LogPage :=
  fun ns pn =>
    match ns with
    | .PROJECT =>
        if pn == rfdPagename "2024".toList "January".toList "5".toList
        then some ⟨c1doc, [mainRfdTitle]⟩
        else none
    | _ => none

/-- The single entry of the C6 one-entry feed. -/
def c6entry : QueueEntry := ⟨"One".toList, 7, some 5⟩

/-- A feed of exactly one entry: every fetch returns it again (its
timestamp collides with the cursor), so the loop's pageid check must
stop the sweep. -/
def c6fetch : Nat → List Nat → List QueueEntry := fun _ _ => [c6entry]

/-- The verifier of the C6 scenario: never a match. -/
def c6verify : QueueEntry → Bool × Option (RMessage × Str) :=
  fun _ => (false, none)

/-- The three feed entries of the C5/C9 scenario; the first two share
creation timestamp 5, the third has timestamp 6. -/
def e1 : QueueEntry := ⟨"A".toList, 1, some 5⟩

/-- Second entry, unfiled throughout; shares its timestamp with `e1`. -/
def e2 : QueueEntry := ⟨"B".toList, 2, some 5⟩

/-- Third entry, revealed only by the second fetch. -/
def e3 : QueueEntry := ⟨"C".toList, 3, some 6⟩

/-- The raw feed by cursor: the second fetch reuses timestamp 5
inclusively and therefore re-serves `e2` (overlap). -/
def c5base : Nat → List QueueEntry := fun c =>
  if c = 1 then [e1, e2]
  else if c = 5 then [e2, e3]
  else if c = 6 then [e3]
  else []

/-- The feed as the API serves it: `showunreviewed` drops pages whose
pageid has been reviewed. -/
def c5fetch : Nat → List Nat → List QueueEntry := fun c rev =>
  (c5base c).filter (fun e => !(rev.contains e.pageid))

/-- The verifier of the C5/C9 scenario: `e1` and `e3` are properly
filed (match, no log); `e2` is unfiled with an `RFD1` log call. -/
def c5verify : QueueEntry → Bool × Option (RMessage × Str) := fun e =>
  if e.pageid == 2 then (false, some (.RFD1, "R".toList)) else (true, none)

/-- The state in which the C5/C9 sweep hands over to cleanup. -/
def c5final : SweepState :=
  ⟨["B".toList, "B".toList], [1, 3],
   ["A".toList, "B".toList, "B".toList, "C".toList],
   ⟨[("d".toList,
      ⟨[⟨":B".toList, "RFD1".toList,
         RMessage.render .RFD1 ":B".toList "R".toList, "t".toList⟩],
       true⟩)], true⟩⟩

/-- The boundary invariant behind C9: a title whose page verifies is
absent from `unreviewed_titles`; a title whose page does not verify
occurs there exactly as often as it was seen. -/
def UnrevInv (verify : QueueEntry → Bool × Option (RMessage × Str))
    (entryOf : Str → QueueEntry) (st : SweepState) : Prop :=
  ∀ t : Str,
    ((verify (entryOf t)).1 = true → st.unreviewed.count t = 0)
    ∧ ((verify (entryOf t)).1 = false →
        st.unreviewed.count t = st.seen.count t)

/-- The fixed entry each feed title denotes in the C9 scenario. -/
def c9entryOf : Str → QueueEntry := fun t =>
  if t == "A".toList then e1
  else if t == "B".toList then e2
  else if t == "C".toList then e3
  else ⟨t, 0, none⟩

theorem allPagesL_append (l₁ l₂ : List (Str × SList)) :
    allPagesL (l₁ ++ l₂) = allPagesL l₁ ++ allPagesL l₂ := by
  simp [allPagesL]

theorem hasKeyL_append_self (l : List (Str × SList)) (k : Str) (v : SList) :
    hasKeyL (l ++ [(k, v)]) k = true := by
  simp [hasKeyL]

theorem count_allPagesL_updateFirst (k : Str) (e : Event) (q : Str)
    (l : List (Str × SList)) :
    (allPagesL (updateFirst k (fun sl => ⟨sl.elems ++ [e], true⟩) l)).count q
      = (allPagesL l).count q
        + (if hasKeyL l k = true ∧ q = e.page then 1 else 0) := by
  induction l with
  | nil => simp [updateFirst, allPagesL, hasKeyL]
  | cons kv rest ih =>
      obtain ⟨k', v⟩ := kv
      simp only [allPagesL, hasKeyL] at ih
      by_cases hk : (k' == k) = true
      · simp only [updateFirst, hk, if_true, allPagesL, List.flatMap_cons,
          List.count_append, hasKeyL, List.any_cons, Bool.true_or, true_and]
        by_cases hq : q = e.page
        · subst hq
          simp [List.count_append]
          omega
        · simp [List.count_append, hq, List.count_cons, Ne.symm hq]
      · simp only [updateFirst, hk, if_false, Bool.false_eq_true, allPagesL,
          List.flatMap_cons, List.count_append, hasKeyL, List.any_cons,
          Bool.false_or]
        rw [ih]
        omega

theorem contains_eq_mem (l : List Str) (a : Str) :
    l.contains a = decide (a ∈ l) := by
  simp [List.contains, List.elem_eq_mem]

theorem logOp_of_mem (data : SDict) (today code page message timestamp : Str)
    (h : page ∈ allPages data) :
    logOp data today code page message timestamp = data := by
  simp [logOp, contains_eq_mem, h]

theorem count_allPages_logOp (data : SDict)
    (today code page message timestamp q : Str) :
    (allPages (logOp data today code page message timestamp)).count q
      = (allPages data).count q
        + (if page ∉ allPages data ∧ q = page then 1 else 0) := by
  by_cases hmem : page ∈ allPages data
  · rw [logOp_of_mem data today code page message timestamp hmem]
    simp [hmem]
  · by_cases hk : hasKeyL data.entries today = true
    · have hlog : (logOp data today code page message timestamp).entries
          = updateFirst today
              (fun l => ⟨l.elems ++ [⟨page, code, message, timestamp⟩], true⟩)
              data.entries := by
        simp [logOp, contains_eq_mem, hmem, hk]
      simp only [allPages, hlog]
      rw [count_allPagesL_updateFirst]
      simp only [allPages] at hmem
      simp [hk, hmem]
    · have hlog : (logOp data today code page message timestamp).entries
          = updateFirst today
              (fun l => ⟨l.elems ++ [⟨page, code, message, timestamp⟩], true⟩)
              (data.entries ++ [(today, ⟨[], false⟩)]) := by
        simp [logOp, contains_eq_mem, hmem, hk]
      simp only [allPages, hlog]
      rw [count_allPagesL_updateFirst]
      have h1 : allPagesL (data.entries ++ [(today, ⟨[], false⟩)])
          = allPagesL data.entries := by
        simp [allPagesL_append, allPagesL]
      rw [h1, hasKeyL_append_self]
      simp only [allPages] at hmem
      simp [hmem]

/-- Duplicate-freedom through `count`, stated over `Str` so that every
`count` in this development uses one `BEq` instance. -/
theorem nodup_iff_count_le_one_str (l : List Str) :
    l.Nodup ↔ ∀ a : Str, l.count a ≤ 1 := by
  induction l with
  | nil => simp
  | cons b t ih =>
      rw [List.nodup_cons, ih]
      constructor
      · rintro ⟨hb, ht⟩ a
        rw [List.count_cons]
        by_cases hab : b = a
        · subst hab
          have h0 : t.count b = 0 := List.count_eq_zero.mpr hb
          simp [h0]
        · have := ht a
          simp only [beq_iff_eq, hab, if_false]
          omega
      · intro h
        refine ⟨?_, fun a => ?_⟩
        · intro hmem
          have h2 := h b
          rw [List.count_cons] at h2
          have h3 : 0 < t.count b := List.count_pos_iff.mpr hmem
          simp at h2
          omega
        · have h2 := h a
          rw [List.count_cons] at h2
          omega

theorem nodup_allPages_logOp (data : SDict)
    (today code page message timestamp : Str)
    (h : (allPages data).Nodup) :
    (allPages (logOp data today code page message timestamp)).Nodup := by
  rw [nodup_iff_count_le_one_str] at h ⊢
  intro a
  rw [count_allPages_logOp]
  by_cases hmem : page ∈ allPages data
  · simpa [hmem] using h a
  · by_cases ha : a = page
    · subst ha
      have h0 : (allPages data).count a = 0 := List.count_eq_zero.mpr hmem
      simp [hmem, h0]
    · simpa [ha] using h a

/-! ## Claim C2 -/

/-- C2: `OnWikiLogger.log` is a no-op when the page already appears
anywhere in the store; logging preserves the global at-most-one-event-
per-page invariant; and logging the same page twice (any day-keys,
codes, rendered messages) leaves exactly one stored event for it. -/
theorem log_once_per_page (data : SDict)
    (today code message timestamp today2 code2 message2 timestamp2 page : Str)
    (hinv : (allPages data).Nodup) :
    (page ∈ allPages data →
      logOp data today code page message timestamp = data)
    ∧ (allPages (logOp data today code page message timestamp)).Nodup
    ∧ (allPages (logOp (logOp data today code page message timestamp)
          today2 code2 page message2 timestamp2)).count page = 1 := by
  refine ⟨logOp_of_mem data today code page message timestamp,
    nodup_allPages_logOp data today code page message timestamp hinv, ?_⟩
  rw [count_allPages_logOp, count_allPages_logOp]
  by_cases hmem : page ∈ allPages data
  · have h1 : (allPages data).count page = 1 := by
      have hle := (nodup_iff_count_le_one_str _).mp hinv page
      have hpos := List.count_pos_iff.mpr hmem
      omega
    have hmem1 : page ∈ allPages (logOp data today code page message timestamp) := by
      rw [logOp_of_mem data today code page message timestamp hmem]
      exact hmem
    simp [hmem, hmem1, h1]
  · have h0 : (allPages data).count page = 0 := List.count_eq_zero.mpr hmem
    have hmem1 : page ∈ allPages (logOp data today code page message timestamp) := by
      rw [← List.count_pos_iff, count_allPages_logOp]
      simp [hmem]
    simp [hmem, hmem1, h0]

/-- C2 witness: the invariant hypothesis and conclusion at a concrete
store (one prior event for another page) and concrete log calls. -/
theorem log_once_per_page_witness :
    (allPages (⟨[("2025-10-01".toList,
        ⟨[⟨":Other".toList, "RFD1".toList, "m0".toList, "t0".toList⟩],
         false⟩)], false⟩ : SDict)).Nodup
    ∧ ((":Foo".toList ∈ allPages (⟨[("2025-10-01".toList,
          ⟨[⟨":Other".toList, "RFD1".toList, "m0".toList, "t0".toList⟩],
           false⟩)], false⟩ : SDict) →
        logOp ⟨[("2025-10-01".toList,
          ⟨[⟨":Other".toList, "RFD1".toList, "m0".toList, "t0".toList⟩],
           false⟩)], false⟩ "2025-10-11".toList "RFD1".toList ":Foo".toList
          "m1".toList "t1".toList
          = ⟨[("2025-10-01".toList,
              ⟨[⟨":Other".toList, "RFD1".toList, "m0".toList, "t0".toList⟩],
               false⟩)], false⟩)
      ∧ (allPages (logOp ⟨[("2025-10-01".toList,
            ⟨[⟨":Other".toList, "RFD1".toList, "m0".toList, "t0".toList⟩],
             false⟩)], false⟩ "2025-10-11".toList "RFD1".toList ":Foo".toList
            "m1".toList "t1".toList)).Nodup
      ∧ (allPages (logOp (logOp ⟨[("2025-10-01".toList,
            ⟨[⟨":Other".toList, "RFD1".toList, "m0".toList, "t0".toList⟩],
             false⟩)], false⟩ "2025-10-11".toList "RFD1".toList ":Foo".toList
            "m1".toList "t1".toList) "2025-10-12".toList "RFD1".toList
            ":Foo".toList "m2".toList "t2".toList)).count ":Foo".toList = 1) :=
  ⟨by decide,
   log_once_per_page _ "2025-10-11".toList "RFD1".toList "m1".toList
     "t1".toList "2025-10-12".toList "RFD1".toList "m2".toList "t2".toList
     ":Foo".toList (by decide)⟩

/-! ## Helper lemmas: cleanup -/

theorem cleanupStep_entries (todayD : Int) (pending : List Str) (acc : SDict)
    (kv : Str × SList) :
    (cleanupStep todayD pending acc kv).entries
      = acc.entries ++ (cleanDay todayD pending kv).toList := by
  simp only [cleanupStep, cleanDay]
  by_cases h1 : day_too_old todayD kv.1 = true
  · simp [h1]
  · simp only [h1, if_false, Bool.false_eq_true]
    by_cases h2 : (keptEvents pending kv.2.elems).isEmpty = true
    · simp [h2]
    · simp [h2]

theorem cleanupStep_changed (todayD : Int) (pending : List Str) (acc : SDict)
    (kv : Str × SList) :
    (cleanupStep todayD pending acc kv).changed = true := by
  simp only [cleanupStep]
  by_cases h1 : day_too_old todayD kv.1 = true
  · simp [h1]
  · simp only [h1, if_false, Bool.false_eq_true]
    by_cases h2 : (keptEvents pending kv.2.elems).isEmpty = true
    · simp [h2]
    · simp [h2]

theorem cleanupFold_entries (todayD : Int) (pending : List Str) :
    ∀ (l : List (Str × SList)) (acc : SDict),
      (l.foldl (cleanupStep todayD pending) acc).entries
        = acc.entries ++ l.filterMap (cleanDay todayD pending)
  | [], acc => by simp
  | kv :: rest, acc => by
      rw [List.foldl_cons, cleanupFold_entries todayD pending rest,
        cleanupStep_entries, List.filterMap_cons]
      cases h : cleanDay todayD pending kv <;> simp [h]

theorem cleanupFold_changed (todayD : Int) (pending : List Str) :
    ∀ (l : List (Str × SList)) (acc : SDict),
      (l.foldl (cleanupStep todayD pending) acc).changed
        = (acc.changed || !l.isEmpty)
  | [], acc => by simp
  | kv :: rest, acc => by
      rw [List.foldl_cons, cleanupFold_changed todayD pending rest]
      simp [cleanupStep_changed]

theorem cleanupOp_entries (todayD : Int) (pending : List Str) (data : SDict) :
    (cleanupOp todayD pending data).entries
      = data.entries.filterMap (cleanDay todayD pending) := by
  rw [cleanupOp, cleanupFold_entries]
  rfl

theorem cleanupOp_changed (todayD : Int) (pending : List Str) (data : SDict) :
    (cleanupOp todayD pending data).changed
      = (data.changed || !data.entries.isEmpty) := by
  rw [cleanupOp, cleanupFold_changed]

/-- Every day-key surviving a cleanup iteration is the key it came
from, and that key is not too old. -/
theorem cleanDay_some (todayD : Int) (pending : List Str) (kv kv' : Str × SList)
    (h : cleanDay todayD pending kv = some kv') :
    kv'.1 = kv.1 ∧ day_too_old todayD kv.1 = false
      ∧ kv'.2.elems = keptEvents pending kv.2.elems
      ∧ kv'.2.changed = false
      ∧ (keptEvents pending kv.2.elems).isEmpty = false := by
  simp only [cleanDay] at h
  by_cases h1 : day_too_old todayD kv.1 = true
  · simp [h1] at h
  · simp only [h1, if_false, Bool.false_eq_true] at h
    by_cases h2 : (keptEvents pending kv.2.elems).isEmpty = true
    · simp [h2] at h
    · simp only [h2, if_false, Bool.false_eq_true] at h
      cases h
      simp_all

/-- No entry survives cleanup under a day-key that does not occur in
the input. -/
theorem find?_filterMap_cleanDay_not_mem (todayD : Int) (pending : List Str)
    (day : Str) :
    ∀ l : List (Str × SList), day ∉ l.map (fun kv => kv.1) →
      (l.filterMap (cleanDay todayD pending)).find? (fun kv => kv.1 == day)
        = none
  | [], _ => by simp
  | kv :: rest, h => by
      simp only [List.map_cons, List.mem_cons, not_or] at h
      obtain ⟨h1, h2⟩ := h
      cases hc : cleanDay todayD pending kv with
      | none =>
          simp only [List.filterMap_cons, hc]
          exact find?_filterMap_cleanDay_not_mem todayD pending day rest h2
      | some kv' =>
          have hkey := (cleanDay_some todayD pending kv kv' hc).1
          have hne : (kv'.1 == day) = false := by
            rw [beq_eq_false_iff_ne, hkey]
            exact fun hx => h1 hx.symm
          simp only [List.filterMap_cons, hc, List.find?_cons, hne]
          exact find?_filterMap_cleanDay_not_mem todayD pending day rest h2

/-- What cleanup leaves under each day-key: the first binding of the
key, passed through the per-day outcome. -/
theorem find?_filterMap_cleanDay (todayD : Int) (pending : List Str)
    (day : Str) :
    ∀ l : List (Str × SList), (l.map (fun kv => kv.1)).Nodup →
      (l.filterMap (cleanDay todayD pending)).find? (fun kv => kv.1 == day)
        = (l.find? (fun kv => kv.1 == day)).bind (cleanDay todayD pending)
  | [], _ => by simp
  | kv :: rest, hnd => by
      simp only [List.map_cons, List.nodup_cons] at hnd
      obtain ⟨hk1, hk2⟩ := hnd
      by_cases hd : (kv.1 == day) = true
      · have hdeq : kv.1 = day := by simpa using hd
        cases hc : cleanDay todayD pending kv with
        | none =>
            simp only [List.filterMap_cons, hc, List.find?_cons, hd]
            rw [find?_filterMap_cleanDay_not_mem todayD pending day rest
              (by rw [← hdeq]; exact hk1)]
            simp [hc]
        | some kv' =>
            have hkey := (cleanDay_some todayD pending kv kv' hc).1
            have hd' : (kv'.1 == day) = true := by
              rw [hkey]
              exact hd
            simp only [List.filterMap_cons, hc, List.find?_cons, hd, hd']
            simp [hc]
      · have hd' : (kv.1 == day) = false := by
          simpa using hd
        cases hc : cleanDay todayD pending kv with
        | none =>
            simp only [List.filterMap_cons, hc, List.find?_cons, hd']
            exact find?_filterMap_cleanDay todayD pending day rest hk2
        | some kv' =>
            have hkey := (cleanDay_some todayD pending kv kv' hc).1
            have hne : (kv'.1 == day) = false := by
              rw [hkey]
              exact hd'
            simp only [List.filterMap_cons, hc, List.find?_cons, hd', hne]
            exact find?_filterMap_cleanDay todayD pending day rest hk2

/-! ## Claim C3 -/

/-- C3: `cleanup` deletes every day-key strictly more than 7 days old
regardless of its contents; each remaining day keeps exactly the events
whose (colon-stripped) page is still pending, and a day left empty is
deleted. The last conjunct grounds `day_too_old` as a strict 7-day
cutoff on the parsed date. -/
theorem cleanup_days (todayD : Int) (pending : List Str) (data : SDict)
    (hkeys : (keysOf data).Nodup) :
    (∀ day, day_too_old todayD day = true →
        lookupDay (cleanupOp todayD pending data) day = none)
    ∧ (∀ day evs, day_too_old todayD day = false →
        lookupDay data day = some evs →
        lookupDay (cleanupOp todayD pending data) day
          = if (keptEvents pending evs).isEmpty then none
            else some (keptEvents pending evs))
    ∧ (∀ y m d day, parseDate day = some (y, m, d) →
        day_too_old todayD day = decide (todayD - daysFromCivil y m d > 7)) := by
  simp only [keysOf] at hkeys
  refine ⟨?_, ?_, ?_⟩
  · intro day htoo
    simp only [lookupDay, cleanupOp_entries,
      find?_filterMap_cleanDay todayD pending day data.entries hkeys]
    cases hf : data.entries.find? (fun kv => kv.1 == day) with
    | none => simp
    | some kv =>
        have hkeq : kv.1 = day := by
          have := List.find?_some hf
          simpa using this
        have hcd : cleanDay todayD pending kv = none := by
          simp [cleanDay, hkeq, htoo]
        simp [hcd]
  · intro day evs hnot hfind
    simp only [lookupDay] at hfind
    simp only [lookupDay, cleanupOp_entries,
      find?_filterMap_cleanDay todayD pending day data.entries hkeys]
    cases hf : data.entries.find? (fun kv => kv.1 == day) with
    | none => rw [hf] at hfind; simp at hfind
    | some kv =>
        rw [hf] at hfind
        simp at hfind
        have hkeq : kv.1 = day := by
          have := List.find?_some hf
          simpa using this
        have hcd : cleanDay todayD pending kv
            = if (keptEvents pending evs).isEmpty then none
              else some (day, ⟨keptEvents pending evs, false⟩) := by
          simp [cleanDay, hkeq, hnot, hfind]
        by_cases he : (keptEvents pending evs).isEmpty = true
        · simp [hcd, he]
        · simp [hcd, he]
  · intro y m d day hparse
    simp [day_too_old, hparse]

/-- C3 witness: on the concrete store, the too-old day vanishes even
though it still holds a pending page, and the recent day keeps exactly
its pending events. -/
theorem cleanup_days_witness :
    (keysOf c3store).Nodup
    ∧ day_too_old c3today c3day1 = true
    ∧ day_too_old c3today c3day2 = false
    ∧ lookupDay (cleanupOp c3today c3pending c3store) c3day1 = none
    ∧ lookupDay (cleanupOp c3today c3pending c3store) c3day2
        = if (keptEvents c3pending [c3evA, c3evB]).isEmpty then none
          else some (keptEvents c3pending [c3evA, c3evB]) :=
  ⟨by decide, by decide, by decide,
   (cleanup_days c3today c3pending c3store (by decide)).1 c3day1 (by decide),
   (cleanup_days c3today c3pending c3store (by decide)).2.1 c3day2
     [c3evA, c3evB] (by decide) (by decide)⟩

/-! ## Helper lemmas: the dirty flag (`SensitivityMixin`) -/

theorem beenChanged_eq_false_of_fresh (d : SDict) (h : FreshStore d) :
    d.beenChanged = false := by
  obtain ⟨h1, h2⟩ := h
  simp only [SDict.beenChanged, h1, Bool.or_false, List.any_eq_false]
  exact fun kv hkv => by simpa using h2 kv hkv

theorem any_changed_updateFirst (k : Str) (e : Event) :
    ∀ l : List (Str × SList), hasKeyL l k = true →
      (updateFirst k (fun sl => ⟨sl.elems ++ [e], true⟩) l).any
        (fun kv => kv.2.changed) = true
  | [], h => by simp [hasKeyL] at h
  | (k', v) :: rest, h => by
      by_cases hk : (k' == k) = true
      · simp [updateFirst, hk]
      · have h' : hasKeyL rest k = true := by
          simp only [hasKeyL, List.any_cons, hk, Bool.false_or] at h
          exact h
        simp only [updateFirst, hk, if_false, Bool.false_eq_true,
          List.any_cons]
        rw [any_changed_updateFirst k e rest h']
        simp

theorem logOp_beenChanged_of_not_mem (data : SDict)
    (today code page message timestamp : Str)
    (hmem : page ∉ allPages data) :
    (logOp data today code page message timestamp).beenChanged = true := by
  by_cases hk : hasKeyL data.entries today = true
  · have hlog : (logOp data today code page message timestamp).entries
        = updateFirst today
            (fun l => ⟨l.elems ++ [⟨page, code, message, timestamp⟩], true⟩)
            data.entries := by
      simp [logOp, contains_eq_mem, hmem, hk]
    simp only [SDict.beenChanged, hlog]
    rw [any_changed_updateFirst _ _ _ hk]
    simp
  · have hlog : (logOp data today code page message timestamp).entries
        = updateFirst today
            (fun l => ⟨l.elems ++ [⟨page, code, message, timestamp⟩], true⟩)
            (data.entries ++ [(today, ⟨[], false⟩)]) := by
      simp [logOp, contains_eq_mem, hmem, hk]
    simp only [SDict.beenChanged, hlog]
    rw [any_changed_updateFirst _ _ _ (hasKeyL_append_self _ _ _)]
    simp

theorem allPages_congr_plain (d₁ d₂ : SDict) (h : plainOf d₁ = plainOf d₂) :
    allPages d₁ = allPages d₂ := by
  have key : ∀ dd : SDict,
      allPages dd = (plainOf dd).flatMap (fun kv => kv.2.map (fun e => e.page)) := by
    intro dd
    simp only [allPages, allPagesL, plainOf]
    induction dd.entries with
    | nil => simp
    | cons kv rest ih => simp [ih]
  rw [key d₁, key d₂, h]

theorem any_changed_cleanup (todayD : Int) (pending : List Str)
    (l : List (Str × SList)) :
    (l.filterMap (cleanDay todayD pending)).any (fun kv => kv.2.changed)
      = false := by
  rw [List.any_eq_false]
  intro kv' hkv'
  obtain ⟨kv, _, hc⟩ := List.mem_filterMap.mp hkv'
  have := (cleanDay_some todayD pending kv kv' hc).2.2.2.1
  simp [this]

/-! ## Claim C4 -/

/-- C4 counterexample: a cleanup cycle can end with structurally
identical content and still have the dirty flag set — `edit` then
saves, i.e. a page edit is performed with nothing changed. -/
theorem cleanup_writes_unchanged_content :
    plainOf (cleanupOp c3today c3pending c4store) = plainOf c4store
    ∧ (cleanupOp c3today c3pending c4store).beenChanged = true := by
  decide

/-- C4 (amended): starting from a freshly loaded store, a `log` cycle
writes iff the store's structural content changed; but a `cleanup`
cycle writes iff the loaded store is nonempty — every visited day-key
is deleted or reassigned, setting the dirty flag even when the
resulting content is structurally identical. -/
theorem edit_writes_iff (data : SDict) (today code page message timestamp : Str)
    (todayD : Int) (pending : List Str) (hfresh : FreshStore data) :
    ((logOp data today code page message timestamp).beenChanged = true
      ↔ plainOf (logOp data today code page message timestamp) ≠ plainOf data)
    ∧ ((cleanupOp todayD pending data).beenChanged = true
      ↔ data.entries ≠ []) := by
  constructor
  · by_cases hmem : page ∈ allPages data
    · rw [logOp_of_mem data today code page message timestamp hmem,
        beenChanged_eq_false_of_fresh data hfresh]
      simp
    · constructor
      · intro _ hple
        have hall := allPages_congr_plain _ _ hple
        have hcount := count_allPages_logOp data today code page message
          timestamp page
        simp only [hmem, not_false_iff, true_and, if_pos] at hcount
        rw [hall] at hcount
        omega
      · intro _
        exact logOp_beenChanged_of_not_mem data today code page message
          timestamp hmem
  · simp only [SDict.beenChanged, cleanupOp_entries, cleanupOp_changed,
      any_changed_cleanup, Bool.false_or, hfresh.1]
    cases data.entries <;> simp

/-- C4 witness for the amended statement: the freshness hypothesis and
both equivalences at a concrete loaded store. -/
theorem edit_writes_iff_witness :
    FreshStore c3store
    ∧ (((logOp c3store "2025-10-12".toList "RFD1".toList ":New".toList
          "m".toList "t".toList).beenChanged = true
        ↔ plainOf (logOp c3store "2025-10-12".toList "RFD1".toList
            ":New".toList "m".toList "t".toList) ≠ plainOf c3store)
      ∧ ((cleanupOp c3today c3pending c3store).beenChanged = true
        ↔ c3store.entries ≠ [])) :=
  ⟨⟨by decide, by decide⟩,
   edit_writes_iff c3store "2025-10-12".toList "RFD1".toList ":New".toList
     "m".toList "t".toList c3today c3pending ⟨by decide, by decide⟩⟩

/-! ## Claim C7 -/

/-- C7: the anchor check succeeds exactly when the parsed log page has
a heading whose whitespace-collapsed title equals the normalized page
title (quotes escaped, leading mainspace colon stripped), or a `span`
whose `id` value — quotes reconciled and whitespace collapsed — equals
it; in particular `<span id="Foo &quot;Bar&quot;">` matches the
mainspace page title `Foo "Bar"`. -/
theorem anchor_match_spec (doc : List WNode) (t : Str) :
    (anchorMatch doc (normAnchor t) = true ↔
      (∃ h, WNode.heading h ∈ doc ∧ compressWs h = normAnchor t)
      ∨ (∃ nm attrs raw, WNode.tag nm attrs ∈ doc ∧ nm = "span".toList
          ∧ pyFindAttr attrs "id".toList = some raw
          ∧ compressWs (removeSuf ['"'] (removePre ['"'] raw))
              = normAnchor t))
    ∧ anchorMatch
        [WNode.tag "span".toList
          [("id".toList, "\"Foo &quot;Bar&quot;\"".toList)]]
        (normAnchor ":Foo \"Bar\"".toList) = true := by
  constructor
  · simp only [anchorMatch, Bool.or_eq_true, List.any_eq_true]
    constructor
    · rintro (⟨n, hn, hm⟩ | ⟨n, hn, hm⟩)
      · cases n with
        | heading h =>
            left
            exact ⟨h, hn, by simpa [matchesHeading] using hm⟩
        | tag nm attrs => simp [matchesHeading] at hm
      · cases n with
        | heading h => simp [matchesTag] at hm
        | tag nm attrs =>
            right
            simp only [matchesTag, isCorrectAnchor] at hm
            by_cases hs : (nm != "span".toList) = true
            · rw [if_pos hs] at hm
              exact absurd hm (by simp)
            · rw [if_neg hs] at hm
              have hseq : nm = "span".toList := by simpa using hs
              cases hf : pyFindAttr attrs "id".toList with
              | none =>
                  rw [hf] at hm
                  exact absurd hm (by simp)
              | some raw =>
                  rw [hf] at hm
                  exact ⟨nm, attrs, raw, hn, hseq, hf, by simpa using hm⟩
    · rintro (⟨h, hn, hm⟩ | ⟨nm, attrs, raw, hn, hs, hf, hm⟩)
      · left
        exact ⟨WNode.heading h, hn, by simp [matchesHeading, hm]⟩
      · right
        refine ⟨WNode.tag nm attrs, hn, ?_⟩
        have hf' : pyFindAttr attrs ['i', 'd'] = some raw := hf
        simp [matchesTag, isCorrectAnchor, hs, hf', hm]
  · decide

/-! ## Claim C8 -/

/-- C8: when the computed forum log page does not exist, `get_page`
with `must_exist` raises `PageNotFoundError`, `_check_filed` consumes
it, logs the `RFD0` (redlink) event whose rendered message names the
expected log title, and returns `False` — a total outcome, nothing
propagates. -/
theorem redlink_unfiled (wiki : NS → Str → Option LogPage)
    (pageTitle y m d : Str)
    (hmiss : wiki .PROJECT (rfdPagename y m d) = none) :
    get_page wiki .PROJECT (rfdPagename y m d) = .error .mk
    ∧ checkFiled wiki pageTitle y m d
        = (false, some (.RFD0, mkTitle .PROJECT (rfdPagename y m d)))
    ∧ RMessage.render .RFD0 pageTitle (mkTitle .PROJECT (rfdPagename y m d))
        = "[[".toList ++ pageTitle ++ "]] not filed to [[".toList
          ++ mkTitle .PROJECT (rfdPagename y m d)
          ++ "]] (currently a redlink).".toList := by
  have hge : get_page wiki .PROJECT (rfdPagename y m d) = .error .mk := by
    simp [get_page, hmiss]
  refine ⟨hge, ?_, rfl⟩
  simp [checkFiled, hge]

/-- C8 witness: the redlink outcome at a concrete page and date. -/
theorem redlink_unfiled_witness :
    c8wiki .PROJECT (rfdPagename "2024".toList "January".toList "5".toList)
        = none
    ∧ (get_page c8wiki .PROJECT
          (rfdPagename "2024".toList "January".toList "5".toList)
        = .error .mk
      ∧ checkFiled c8wiki ":Foo".toList "2024".toList "January".toList
          "5".toList
        = (false, some (.RFD0, mkTitle .PROJECT
            (rfdPagename "2024".toList "January".toList "5".toList)))
      ∧ RMessage.render .RFD0 ":Foo".toList
          (mkTitle .PROJECT
            (rfdPagename "2024".toList "January".toList "5".toList))
        = "[[".toList ++ ":Foo".toList ++ "]] not filed to [[".toList
          ++ mkTitle .PROJECT
              (rfdPagename "2024".toList "January".toList "5".toList)
          ++ "]] (currently a redlink).".toList) :=
  ⟨rfl,
   redlink_unfiled c8wiki ":Foo".toList "2024".toList "January".toList
     "5".toList rfl⟩

/-! ## Claim C1 -/

/-- C1: evaluation at the failing input. The forum log page exists and
contains no matching anchor, and the `RFD1` ("not filed") event is
indeed logged — but `_check_filed` falls through to `return True`, so
`check_rfd` reports a match and `checkqueue` would mark the page
reviewed, where both the spec and `_check_filed`'s own docstring
require `False` (leave unreviewed). -/
theorem unfiled_yet_reported_filed :
    c1wiki .PROJECT (rfdPagename "2024".toList "January".toList "5".toList)
        = some ⟨c1doc, [mainRfdTitle]⟩
    ∧ anchorMatch c1doc (normAnchor ":Foo".toList) = false
    ∧ check_rfd c1wiki
        (some ("2024".toList, "January".toList, "5".toList)) ":Foo".toList
      = (true, some (.RFD1, mkTitle .PROJECT
          (rfdPagename "2024".toList "January".toList "5".toList))) := by
  refine ⟨by decide, by decide, by decide⟩

/-! ## Claim C6 -/

/-- C6: the sweep breaks as soon as a follow-up fetch returns an empty
queue or a queue whose last entry's pageid equals the previous queue's
last pageid: whenever the first follow-up fetch stalls in this sense,
the loop returns after the current iteration for every fuel bound — in
particular a one-entry feed and a deliberately stalling feed terminate
without looping. -/
theorem sweep_breaks_on_stall (fetch : Nat → List Nat → List QueueEntry)
    (verify : QueueEntry → Bool × Option (RMessage × Str))
    (today ts : Str) (fuel : Nat) (st : SweepState)
    (queue : List QueueEntry) (lastE : QueueEntry) (lastTs : Nat)
    (hlast : queue.getLast? = some lastE)
    (hts : lastE.creation_date = some lastTs)
    (hstall :
      (fetch lastTs (processQueue today ts verify st queue).reviews).isEmpty
          = true
      ∨ (fetch lastTs (processQueue today ts verify st queue).reviews).getLast?.map
            (fun e => e.pageid)
          = some lastE.pageid) :
    sweepLoop fetch verify today ts (fuel + 1) st queue
      = some (.ok (processQueue today ts verify st queue)) := by
  simp only [sweepLoop, hlast, hts]
  cases hstall with
  | inl he =>
      have hnil : fetch lastTs (processQueue today ts verify st queue).reviews
          = [] := by
        simpa using he
      simp [hnil]
  | inr hp =>
      cases hnl : (fetch lastTs
          (processQueue today ts verify st queue).reviews).getLast? with
      | none => simp [hnl] at hp
      | some nl =>
          rw [hnl] at hp
          simp only [Option.map_some', Option.some.injEq] at hp
          simp [hnl, hp]

/-- C6 witness: the one-entry feed terminates after one iteration with
fuel 1. -/
theorem sweep_breaks_on_stall_witness :
    ([c6entry].getLast? = some c6entry
      ∧ c6entry.creation_date = some 5
      ∧ ((c6fetch 5 (processQueue "d".toList "t".toList c6verify
              ⟨[], [], [], ⟨[], false⟩⟩ [c6entry]).reviews).isEmpty = true
        ∨ (c6fetch 5 (processQueue "d".toList "t".toList c6verify
              ⟨[], [], [], ⟨[], false⟩⟩ [c6entry]).reviews).getLast?.map
              (fun e => e.pageid) = some c6entry.pageid))
    ∧ sweepLoop c6fetch c6verify "d".toList "t".toList 1
          ⟨[], [], [], ⟨[], false⟩⟩ [c6entry]
        = some (.ok (processQueue "d".toList "t".toList c6verify
            ⟨[], [], [], ⟨[], false⟩⟩ [c6entry])) :=
  ⟨⟨rfl, rfl, Or.inr rfl⟩,
   sweep_breaks_on_stall c6fetch c6verify "d".toList "t".toList 0
     ⟨[], [], [], ⟨[], false⟩⟩ [c6entry] c6entry 5 rfl rfl (Or.inr rfl)⟩

/-! ## Helper lemmas: the sweep -/

theorem applyVerify_reviews (today ts : Str)
    (verify : QueueEntry → Bool × Option (RMessage × Str))
    (st : SweepState) (e : QueueEntry) :
    (applyVerify today ts verify st e).reviews
      = if (verify e).1 then st.reviews ++ [e.pageid] else st.reviews := by
  simp only [applyVerify]
  by_cases hv : (verify e).1 = true <;> simp [hv]

theorem foldVerify_reviews (today ts : Str)
    (verify : QueueEntry → Bool × Option (RMessage × Str)) :
    ∀ (q : List QueueEntry) (st : SweepState),
      (q.foldl (applyVerify today ts verify) st).reviews
        = st.reviews
          ++ (q.filter (fun e => (verify e).1)).map (fun e => e.pageid)
  | [], st => by simp
  | e :: r, st => by
      rw [List.foldl_cons, foldVerify_reviews today ts verify r,
        applyVerify_reviews]
      by_cases hv : (verify e).1 = true <;> simp [hv]

theorem processQueue_reviews (today ts : Str)
    (verify : QueueEntry → Bool × Option (RMessage × Str))
    (st : SweepState) (q : List QueueEntry) :
    (processQueue today ts verify st q).reviews
      = st.reviews
        ++ (q.filter (fun e => (verify e).1)).map (fun e => e.pageid) := by
  simp only [processQueue]
  rw [foldVerify_reviews]

theorem applyVerify_store_nodup (today ts : Str)
    (verify : QueueEntry → Bool × Option (RMessage × Str))
    (st : SweepState) (e : QueueEntry)
    (h : (allPages st.store).Nodup) :
    (allPages (applyVerify today ts verify st e).store).Nodup := by
  simp only [applyVerify]
  cases hv2 : (verify e).2 with
  | none => by_cases hv : (verify e).1 = true <;> simp [hv, h]
  | some act =>
      by_cases hv : (verify e).1 = true <;>
        simp [hv, nodup_allPages_logOp _ _ _ _ _ _ h]

theorem foldVerify_store_nodup (today ts : Str)
    (verify : QueueEntry → Bool × Option (RMessage × Str)) :
    ∀ (q : List QueueEntry) (st : SweepState),
      (allPages st.store).Nodup →
      (allPages (q.foldl (applyVerify today ts verify) st).store).Nodup
  | [], st, h => h
  | e :: r, st, h => by
      rw [List.foldl_cons]
      exact foldVerify_store_nodup today ts verify r _
        (applyVerify_store_nodup today ts verify st e h)

theorem processQueue_store_nodup (today ts : Str)
    (verify : QueueEntry → Bool × Option (RMessage × Str))
    (st : SweepState) (q : List QueueEntry)
    (h : (allPages st.store).Nodup) :
    (allPages (processQueue today ts verify st q).store).Nodup := by
  simp only [processQueue]
  exact foldVerify_store_nodup today ts verify q _ h

/-- The loop invariant behind C5: reviewed pageids stay duplicate-free
and the log store keeps at most one event per page, provided each
fetched queue has duplicate-free pageids and never re-serves an
already-reviewed pageid. -/
theorem sweepLoop_nodup (fetch : Nat → List Nat → List QueueEntry)
    (verify : QueueEntry → Bool × Option (RMessage × Str)) (today ts : Str)
    (h1 : ∀ c rev, ((fetch c rev).map (fun e => e.pageid)).Nodup)
    (h2 : ∀ c rev e, e ∈ fetch c rev → e.pageid ∉ rev) :
    ∀ (fuel : Nat) (st : SweepState) (queue : List QueueEntry)
      (st' : SweepState),
      st.reviews.Nodup →
      (∀ e ∈ queue, e.pageid ∉ st.reviews) →
      (queue.map (fun e => e.pageid)).Nodup →
      (allPages st.store).Nodup →
      sweepLoop fetch verify today ts fuel st queue = some (.ok st') →
      st'.reviews.Nodup ∧ (allPages st'.store).Nodup := by
  intro fuel
  induction fuel with
  | zero => intro st queue st' _ _ _ _ hrun; simp [sweepLoop] at hrun
  | succ n ih =>
      intro st queue st' hrev hqrev hqnd hstore hrun
      have hrev'' : (processQueue today ts verify st queue).reviews.Nodup := by
        rw [processQueue_reviews]
        rw [List.nodup_append]
        refine ⟨hrev, ?_, ?_⟩
        · exact List.Nodup.sublist
            (List.Sublist.map _ (List.filter_sublist _)) hqnd
        · intro a ha hb
          obtain ⟨e, he, hpe⟩ := List.mem_map.mp hb
          have heq : e ∈ queue := List.mem_of_mem_filter he
          exact hqrev e heq (by rw [hpe]; exact ha)
      have hstore'' :
          (allPages (processQueue today ts verify st queue).store).Nodup :=
        processQueue_store_nodup today ts verify st queue hstore
      simp only [sweepLoop] at hrun
      split at hrun
      · simp at hrun
      · rename_i lastE hlast
        split at hrun
        · simp at hrun
        · rename_i lastTs hts
          split at hrun
          · simp only [Option.some.injEq, Except.ok.injEq] at hrun
            subst hrun
            exact ⟨hrev'', hstore''⟩
          · rename_i nl hnl
            split at hrun
            · simp only [Option.some.injEq, Except.ok.injEq] at hrun
              subst hrun
              exact ⟨hrev'', hstore''⟩
            · exact ih _ _ _ hrev''
                (fun e he => h2 lastTs _ e he)
                (h1 lastTs _) hstore'' hrun

/-! ## Claim C5 -/

/-- C5: across one sweep — including overlapping fetches caused by the
inclusive timestamp cursor — no queue entry is reviewed more than once,
and the store never accumulates more than one event per page. The feed
hypotheses express what `showunreviewed` and the feed's own shape
guarantee: a fetch has duplicate-free pageids and never returns an
already-reviewed page. -/
theorem sweep_no_double_review (fetch : Nat → List Nat → List QueueEntry)
    (verify : QueueEntry → Bool × Option (RMessage × Str))
    (today ts : Str) (store0 : SDict) (fuel : Nat) (st' : SweepState)
    (h1 : ∀ c rev, ((fetch c rev).map (fun e => e.pageid)).Nodup)
    (h2 : ∀ c rev e, e ∈ fetch c rev → e.pageid ∉ rev)
    (hstore : (allPages store0).Nodup)
    (hrun : checkqueueRun fetch verify today ts store0 fuel
        = some (.ok st')) :
    st'.reviews.Nodup ∧ (allPages st'.store).Nodup := by
  exact sweepLoop_nodup fetch verify today ts h1 h2 fuel
    ⟨[], [], [], store0⟩ (fetch 1 []) st' (by simp)
    (fun e he => h2 1 [] e he) (h1 1 []) hstore hrun

theorem c5fetch_pageid_nodup (c : Nat) (rev : List Nat) :
    ((c5fetch c rev).map (fun e => e.pageid)).Nodup := by
  apply List.Nodup.sublist
    (List.Sublist.map _ (List.filter_sublist (c5base c)))
  simp only [c5base]
  split
  · decide
  · split
    · decide
    · split <;> decide

theorem c5fetch_not_reviewed (c : Nat) (rev : List Nat) (e : QueueEntry)
    (he : e ∈ c5fetch c rev) : e.pageid ∉ rev := by
  have h := (List.mem_filter.mp he).2
  intro hmem
  have hc : rev.contains e.pageid = true := by
    simp [List.contains, List.elem_eq_mem, hmem]
  rw [hc] at h
  simp at h

/-- C5 witness: the concrete overlapping feed (`e2` is served by two
consecutive fetches) reviews no pageid twice and stores one event for
the one unfiled page. -/
theorem sweep_no_double_review_witness :
    (∀ c rev, ((c5fetch c rev).map (fun e => e.pageid)).Nodup)
    ∧ (∀ c rev e, e ∈ c5fetch c rev → e.pageid ∉ rev)
    ∧ (allPages (⟨[], false⟩ : SDict)).Nodup
    ∧ checkqueueRun c5fetch c5verify "d".toList "t".toList ⟨[], false⟩ 2
        = some (.ok c5final)
    ∧ (c5final.reviews.Nodup ∧ (allPages c5final.store).Nodup) :=
  ⟨c5fetch_pageid_nodup, c5fetch_not_reviewed, by decide, rfl,
   sweep_no_double_review c5fetch c5verify "d".toList "t".toList
     ⟨[], false⟩ 2 c5final c5fetch_pageid_nodup c5fetch_not_reviewed
     (by decide) rfl⟩

theorem applyVerify_seen (today ts : Str)
    (verify : QueueEntry → Bool × Option (RMessage × Str))
    (st : SweepState) (e : QueueEntry) :
    (applyVerify today ts verify st e).seen = st.seen := by
  simp only [applyVerify]
  by_cases hv : (verify e).1 = true <;> simp [hv]

theorem applyVerify_unreviewed (today ts : Str)
    (verify : QueueEntry → Bool × Option (RMessage × Str))
    (st : SweepState) (e : QueueEntry) :
    (applyVerify today ts verify st e).unreviewed
      = if (verify e).1 then st.unreviewed.erase e.title
        else st.unreviewed := by
  simp only [applyVerify]
  by_cases hv : (verify e).1 = true <;> simp [hv]

theorem foldVerify_seen (today ts : Str)
    (verify : QueueEntry → Bool × Option (RMessage × Str)) :
    ∀ (r : List QueueEntry) (st : SweepState),
      (r.foldl (applyVerify today ts verify) st).seen = st.seen
  | [], st => rfl
  | e :: r, st => by
      rw [List.foldl_cons, foldVerify_seen today ts verify r,
        applyVerify_seen]

theorem foldVerify_unrev (today ts : Str)
    (verify : QueueEntry → Bool × Option (RMessage × Str))
    (entryOf : Str → QueueEntry) :
    ∀ (r : List QueueEntry) (st : SweepState),
      (∀ e ∈ r, e = entryOf e.title) →
      (∀ t : Str,
        ((verify (entryOf t)).1 = true →
          st.unreviewed.count t = (r.map (fun e => e.title)).count t)
        ∧ ((verify (entryOf t)).1 = false →
            st.unreviewed.count t = st.seen.count t)) →
      UnrevInv verify entryOf (r.foldl (applyVerify today ts verify) st)
  | [], st, _, hmid => by
      intro t
      refine ⟨fun hv => ?_, fun hv => ?_⟩
      · simpa using (hmid t).1 hv
      · exact (hmid t).2 hv
  | e :: r, st, hr, hmid => by
      rw [List.foldl_cons]
      have he : e = entryOf e.title := hr e (List.mem_cons_self e r)
      apply foldVerify_unrev today ts verify entryOf r
        (applyVerify today ts verify st e)
        (fun e' he' => hr e' (List.mem_cons_of_mem e he'))
      intro t
      rw [applyVerify_unreviewed, applyVerify_seen]
      by_cases hv : (verify e).1 = true
      · rw [if_pos hv]
        refine ⟨fun hvt => ?_, fun hvt => ?_⟩
        · by_cases hte : t = e.title
          · subst hte
            have h1 := (hmid e.title).1 hvt
            rw [List.map_cons, List.count_cons_self] at h1
            rw [List.count_erase_self, h1]
            omega
          · rw [List.count_erase_of_ne hte]
            have h1 := (hmid t).1 hvt
            rw [List.map_cons, List.count_cons_of_ne hte] at h1
            exact h1
        · by_cases hte : t = e.title
          · subst hte
            rw [← he] at hvt
            rw [hv] at hvt
            cases hvt
          · rw [List.count_erase_of_ne hte]
            exact (hmid t).2 hvt
      · rw [if_neg hv]
        refine ⟨fun hvt => ?_, fun hvt => ?_⟩
        · by_cases hte : t = e.title
          · subst hte
            rw [← he] at hvt
            rw [hvt] at hv
            cases hv rfl
          · have h1 := (hmid t).1 hvt
            rw [List.map_cons, List.count_cons_of_ne hte] at h1
            exact h1
        · exact (hmid t).2 hvt

theorem processQueue_unrev (today ts : Str)
    (verify : QueueEntry → Bool × Option (RMessage × Str))
    (entryOf : Str → QueueEntry) (st : SweepState)
    (queue : List QueueEntry)
    (hq : ∀ e ∈ queue, e = entryOf e.title)
    (hinv : UnrevInv verify entryOf st) :
    UnrevInv verify entryOf (processQueue today ts verify st queue) := by
  simp only [processQueue]
  apply foldVerify_unrev today ts verify entryOf queue _ hq
  intro t
  simp only [List.count_append]
  refine ⟨fun hv => ?_, fun hv => ?_⟩
  · rw [(hinv t).1 hv]
    omega
  · rw [(hinv t).2 hv]

theorem sweepLoop_unrev (fetch : Nat → List Nat → List QueueEntry)
    (verify : QueueEntry → Bool × Option (RMessage × Str))
    (entryOf : Str → QueueEntry) (today ts : Str)
    (hfetch : ∀ c rev e, e ∈ fetch c rev → e = entryOf e.title) :
    ∀ (fuel : Nat) (st : SweepState) (queue : List QueueEntry)
      (st' : SweepState),
      (∀ e ∈ queue, e = entryOf e.title) →
      UnrevInv verify entryOf st →
      sweepLoop fetch verify today ts fuel st queue = some (.ok st') →
      UnrevInv verify entryOf st' := by
  intro fuel
  induction fuel with
  | zero => intro st queue st' _ _ hrun; simp [sweepLoop] at hrun
  | succ n ih =>
      intro st queue st' hq hinv hrun
      have hinv'' := processQueue_unrev today ts verify entryOf st queue
        hq hinv
      simp only [sweepLoop] at hrun
      split at hrun
      · simp at hrun
      · split at hrun
        · simp at hrun
        · rename_i lastE hlast lastTs hts
          split at hrun
          · simp only [Option.some.injEq, Except.ok.injEq] at hrun
            subst hrun
            exact hinv''
          · split at hrun
            · simp only [Option.some.injEq, Except.ok.injEq] at hrun
              subst hrun
              exact hinv''
            · exact ih _ _ _ (fun e he => hfetch lastTs _ e he) hinv'' hrun

/-! ## Claim C9 -/

/-- C9: when the sweep completes and hands `unreviewed_titles` to
cleanup, that list contains exactly the titles seen during the sweep
whose pages did not verify: every reviewed title has been removed, and
every unreviewed seen title is present. `entryOf` pins each feed title
to one queue entry (titles are unique on the wiki), so verification is
a function of the title. -/
theorem sweep_unreviewed_exact (fetch : Nat → List Nat → List QueueEntry)
    (verify : QueueEntry → Bool × Option (RMessage × Str))
    (entryOf : Str → QueueEntry) (today ts : Str) (store0 : SDict)
    (fuel : Nat) (st' : SweepState) (t : Str)
    (hfetch : ∀ c rev e, e ∈ fetch c rev → e = entryOf e.title)
    (hrun : checkqueueRun fetch verify today ts store0 fuel
        = some (.ok st')) :
    t ∈ st'.unreviewed
      ↔ (t ∈ st'.seen ∧ (verify (entryOf t)).1 = false) := by
  have hinv : UnrevInv verify entryOf st' := by
    apply sweepLoop_unrev fetch verify entryOf today ts hfetch fuel
      ⟨[], [], [], store0⟩ (fetch 1 []) st'
      (fun e he => hfetch 1 [] e he) _ hrun
    intro t0
    constructor <;> intro _ <;> simp
  cases hv : (verify (entryOf t)).1 with
  | true =>
      have h0 := (hinv t).1 hv
      constructor
      · intro hmem
        have := List.count_pos_iff.mpr hmem
        omega
      · rintro ⟨_, hfalse⟩
        cases hfalse
  | false =>
      have h0 := (hinv t).2 hv
      constructor
      · intro hmem
        have hp := List.count_pos_iff.mpr hmem
        rw [h0] at hp
        exact ⟨List.count_pos_iff.mp hp, rfl⟩
      · rintro ⟨hseen, _⟩
        have hp := List.count_pos_iff.mpr hseen
        rw [← h0] at hp
        exact List.count_pos_iff.mp hp

theorem c9fetch_entryOf (c : Nat) (rev : List Nat) (e : QueueEntry)
    (he : e ∈ c5fetch c rev) : e = c9entryOf e.title := by
  have hb : e ∈ c5base c := List.mem_of_mem_filter he
  simp only [c5base] at hb
  split at hb
  · simp at hb
    rcases hb with h | h <;> (subst h; decide)
  · split at hb
    · simp at hb
      rcases hb with h | h <;> (subst h; decide)
    · split at hb
      · simp at hb
        subst hb
        decide
      · simp at hb

/-- C9 witness: on the concrete overlapping feed, the final
`unreviewed_titles` holds exactly the seen-but-unverified title `B` and
none of the reviewed titles `A`, `C`. -/
theorem sweep_unreviewed_exact_witness :
    (∀ c rev e, e ∈ c5fetch c rev → e = c9entryOf e.title)
    ∧ checkqueueRun c5fetch c5verify "d".toList "t".toList ⟨[], false⟩ 2
        = some (.ok c5final)
    ∧ ("B".toList ∈ c5final.unreviewed
        ↔ ("B".toList ∈ c5final.seen
          ∧ (c5verify (c9entryOf "B".toList)).1 = false))
    ∧ ("A".toList ∈ c5final.unreviewed
        ↔ ("A".toList ∈ c5final.seen
          ∧ (c5verify (c9entryOf "A".toList)).1 = false)) :=
  ⟨c9fetch_entryOf, rfl,
   sweep_unreviewed_exact c5fetch c5verify c9entryOf "d".toList "t".toList
     ⟨[], false⟩ 2 c5final "B".toList c9fetch_entryOf rfl,
   sweep_unreviewed_exact c5fetch c5verify c9entryOf "d".toList "t".toList
     ⟨[], false⟩ 2 c5final "A".toList c9fetch_entryOf rfl⟩

/-! ## Claim C10 -/

/-- C10: the `MAIN` namespace prefix is the bare colon, so titles built
through `Title` for mainspace pages — in particular the page strings
the sweep logs — carry a leading colon; `cleanup`'s filter strips that
colon before comparing with the colonless feed titles, so a logged
mainspace event survives cleanup of its day exactly when its colonless
title is still pending. -/
theorem mainspace_colon (p : Str) (q : QueueEntry) (pending : List Str)
    (evs : List Event) (e : Event) (hpage : e.page = mkTitle .MAIN p) :
    NS.pre .MAIN = [':']
    ∧ mkTitle .MAIN p = ':' :: p
    ∧ pageOf q = ':' :: q.title
    ∧ removePre [':'] (mkTitle .MAIN p) = p
    ∧ (e ∈ keptEvents pending evs ↔ (e ∈ evs ∧ p ∈ pending)) := by
  have h4 : removePre [':'] (mkTitle .MAIN p) = p := by
    show removePre [':'] (':' :: p) = p
    simp [removePre, List.isPrefixOf]
  refine ⟨rfl, rfl, rfl, h4, ?_⟩
  constructor
  · intro hm
    have hmf := List.mem_filter.mp hm
    refine ⟨hmf.1, ?_⟩
    have h5 := hmf.2
    rw [hpage, h4, contains_eq_mem] at h5
    exact of_decide_eq_true h5
  · rintro ⟨hm, hp⟩
    apply List.mem_filter.mpr
    refine ⟨hm, ?_⟩
    rw [hpage, h4, contains_eq_mem]
    exact decide_eq_true hp

/-- C10 witness: the logged event `:Foo` of the cleanup scenario is
kept by the day filter exactly because the colonless `Foo` is
pending. -/
theorem mainspace_colon_witness :
    c3evA.page = mkTitle .MAIN "Foo".toList
    ∧ (NS.pre .MAIN = [':']
      ∧ mkTitle .MAIN "Foo".toList = ':' :: "Foo".toList
      ∧ pageOf e2 = ':' :: e2.title
      ∧ removePre [':'] (mkTitle .MAIN "Foo".toList) = "Foo".toList
      ∧ (c3evA ∈ keptEvents c3pending [c3evA, c3evB]
          ↔ (c3evA ∈ [c3evA, c3evB] ∧ "Foo".toList ∈ c3pending))) :=
  ⟨by decide,
   mainspace_colon "Foo".toList e2 c3pending [c3evA, c3evB] c3evA
     (by decide)⟩

end Zinbot
